import Mathlib

/-!
Verification of the PDF report parsing core of the `nomad-cau-plugin`
repository (`src/nomad_cau_plugin/parsers/pdf_extract.py`, with the
temporary-file handling of `normalizers/mro004_normalizer.py` and
`measurements/MRO004.py`).

Strings are modelled as `List Char`; the Line Stream (the list of lines
obtained from splitting the extracted PDF text on newline characters) is a
`List (List Char)`.  All lines therefore contain no newline character, which
is used tacitly where Python regular-expression semantics would otherwise
depend on embedded newlines.
-/

namespace PdfExtract

/-- Python `str.strip()` / `\s` whitespace set, restricted to ASCII
(space, tab, newline, carriage return, vertical tab, form feed). -/
def isWs (c : Char) : Bool :=
  c == ' ' || c == '\t' || c == '\n' || c == '\r' || c == '\x0b' || c == '\x0c'

/-- Remove leading whitespace (left part of Python `str.strip()`). -/
def ltrim (s : List Char) : List Char := s.dropWhile isWs

/-- Remove trailing whitespace (right part of Python `str.strip()`). -/
def rtrim (s : List Char) : List Char := (s.reverse.dropWhile isWs).reverse

/-- Python `str.strip()`. -/
def strip (s : List Char) : List Char := rtrim (ltrim s)

/-- Helper for Python `str.split()`: accumulate the current token (in
reverse) while scanning. -/
def splitWsAux : List Char → List Char → List (List Char)
  | [], cur => if cur = [] then [] else [cur.reverse]
  | c :: rest, cur =>
      if isWs c then
        if cur = [] then splitWsAux rest [] else cur.reverse :: splitWsAux rest []
      else splitWsAux rest (c :: cur)

/-- Python `str.split()` with no separator argument: split on runs of
whitespace, never producing empty tokens. -/
def splitWs (s : List Char) : List (List Char) := splitWsAux s []

/-- One character of the time pattern: a decimal digit (`\d`, ASCII). -/
def dOK (o : Option Char) : Bool :=
  match o with
  | some c => c.isDigit
  | none => false

/-- One character of the time pattern: the colon separator. -/
def cOK (o : Option Char) : Bool :=
  match o with
  | some c => c == ':'
  | none => false

/-- Whether the string begins with a match of the regex
`\d\x7b2\x7d:\d\x7b2\x7d:\d\x7b2\x7d` (the time pattern `HH:MM:SS` of
`pdf_extract.py` lines 91 and 322). -/
def isTimeAt (s : List Char) : Bool :=
  dOK s[0]? && dOK s[1]? && cOK s[2]? && dOK s[3]? && dOK s[4]? &&
    cOK s[5]? && dOK s[6]? && dOK s[7]?

/-- Scanner underlying `re.findall` / `re.finditer` for the time pattern:
returns the start positions of all non-overlapping matches, scanning left to
right; after a match the scan resumes 8 characters further (7 skipped
positions beyond the next one).  `i` is the absolute position of the head of
`s`; `skip` is the number of positions still to skip after a reported
match. -/
def timeAux : List Char → Nat → Nat → List Nat
  | [], _, _ => []
  | _ :: rest, i, skip + 1 => timeAux rest (i + 1) skip
  | s@(_ :: rest), i, 0 =>
      if isTimeAt s then i :: timeAux rest (i + 1) 7
      else timeAux rest (i + 1) 0

/-- Start positions of the non-overlapping matches of the time pattern in
`s`, as found by `re.findall(r'(\d\x7b2\x7d:\d\x7b2\x7d:\d\x7b2\x7d)', s)`
(`pdf_extract.py` lines 92 and 323). -/
def timePositions (s : List Char) : List Nat := timeAux s 0 0

/-- The 8-character matched substring starting at position `p`. -/
def sub8 (s : List Char) (p : Nat) : List Char := (s.drop p).take 8

/-! ## Section locating (`pdf_extract.py` lines 26-37 and 161-180) -/

/-- Index recorded for a section marker: the loop
`for i, line in enumerate(lines): if line.strip() == marker: idx = i`
keeps the index of the last line whose stripped content equals the
marker, or leaves it `None`. -/
def findLastIdx (lines : List (List Char)) (marker : List Char) : Option Nat :=
  ((lines.enum.filter (fun p => strip p.2 = marker)).map Prod.fst).getLast?

/-- The Python slice `lines[a:b]` computed only when both marker indices
were found, else the empty list (`pdf_extract.py` lines 37, 178-180). -/
def sectionSlice (lines : List (List Char)) (m1 m2 : List Char) :
    List (List Char) :=
  match findLastIdx lines m1, findLastIdx lines m2 with
  | some a, some b => (lines.drop a).take (b - a)
  | _, _ => []

/-! ## Chemistry Table Builder (`pdf_extract.py` lines 182-223) -/

/-- One record of the chemistry table; field names follow the dict keys
built at lines 213-221: `Chemical`, `Type`, `Mol Weight`, `Stoic. Coeff`,
`Actual Moles`, `Actual Amount`, `Conc. Notes`. -/
structure ChemRecord where
  chemical : List Char
  typeCol : List Char
  molWeight : List Char
  stoicCoeff : List Char
  actualMoles : List Char
  actualAmount : List Char
  concNotes : List Char
deriving DecidableEq

/-- Processing of one chemistry data line (`pdf_extract.py` lines 189-221):
strip, skip if blank, split on whitespace, and if at least 8 tokens emit a
record assembled from fixed offsets counted from the end of the token list:
`conc_notes = parts[-1]`, `actual_amount_num = parts[-2]`,
`actual_amount_unit = parts[-3]`, `actual_moles = parts[-4]`,
`stoic_coeff = parts[-5]`, `mol_weight = parts[-6] + " " + parts[-7]`,
`type_col = parts[-8]`, `chemical_name = ' '.join(parts[:-8])`. -/
def chemRow (line : List Char) : Option ChemRecord :=
  let l := strip line
  if l = [] then none
  else
    let parts := splitWs l
    let n := parts.length
    if 8 ≤ n then
      some
        { chemical := List.intercalate [' '] (parts.take (n - 8))
          typeCol := parts.getD (n - 8) []
          molWeight := parts.getD (n - 6) [] ++ ' ' :: parts.getD (n - 7) []
          stoicCoeff := parts.getD (n - 5) []
          actualMoles := parts.getD (n - 4) []
          actualAmount := parts.getD (n - 2) [] ++ ' ' :: parts.getD (n - 3) []
          concNotes := parts.getD (n - 1) [] }
    else none

/-- The chemistry branch of `extract_tables_from_report`: slice the section
between the last `"2 Chemistry"` and `"3 Setup"` markers; if non-empty,
drop the section-label line (`chemistry_lines[1:]`), then iterate over
`chemistry_lines[2:]` collecting the rows. -/
def extractTablesChemistry (lines : List (List Char)) : List ChemRecord :=
  let cl := sectionSlice lines ("2 Chemistry".toList) ("3 Setup".toList)
  if cl = [] then [] else (((cl.drop 1).drop 2).filterMap chemRow)

/-! ## Setup Table Builder (`pdf_extract.py` lines 225-268) -/

/-- One record of the setup table (dict keys `Component`, `Description`). -/
structure SetupRecord where
  component : List Char
  description : List Char
deriving DecidableEq

/-- The test `re.match(r'^[A-Za-z]+\s*:', line)` of line 240: one or more
ASCII letters, then optional whitespace, then a colon, anchored at the
start.  Backtracking cannot help a shorter letter run (the following
character would be a letter, which `\s*:` cannot match), so the maximal
letter run is exact. -/
def isNewComponent (l : List Char) : Bool :=
  !(l.takeWhile Char.isAlpha).isEmpty &&
    (((l.dropWhile Char.isAlpha).dropWhile isWs).headD ' ' == ':')

/-- State of the setup fold: the open component (`current_component`,
`None` initially), the accumulating description, and the emitted records. -/
def setupFold (st : Option (List Char) × List Char × List SetupRecord)
    (line : List Char) : Option (List Char) × List Char × List SetupRecord :=
  let cur := st.1
  let desc := st.2.1
  let acc := st.2.2
  let l := strip line
  if l = [] then (cur, desc, acc)
  else if isNewComponent l then
    let acc' :=
      match cur with
      | some c => acc ++ [⟨c, strip desc⟩]
      | none => acc
    let pre := l.takeWhile (fun c => !(c == ':'))
    let rest := l.dropWhile (fun c => !(c == ':'))
    let desc' := match rest with
      | _ :: t => strip t
      | [] => []
    (some (strip pre), desc', acc')
  else
    match cur with
    | none =>
        if !(("Description".toList).isSuffixOf l) then (some l, [], acc)
        else (cur, desc, acc)
    | some _ => (cur, desc ++ ' ' :: l, acc)

/-- Fold the setup lines and flush the final open component
(`pdf_extract.py` lines 231-266). -/
def setupBuilder (ls : List (List Char)) : List SetupRecord :=
  let st := ls.foldl setupFold (none, [], [])
  match st.1 with
  | some c => st.2.2 ++ [⟨c, strip st.2.1⟩]
  | none => st.2.2

/-- The setup branch of `extract_tables_from_report`: slice between the
last `"3 Setup"` and `"4 Recipe"` markers, and if non-empty drop the
section-label line and fold. -/
def extractTablesSetup (lines : List (List Char)) : List SetupRecord :=
  let sl := sectionSlice lines ("3 Setup".toList) ("4 Recipe".toList)
  if sl = [] then [] else setupBuilder (sl.drop 1)

/-! ## Recipe Entry Reconstructor (`pdf_extract.py` lines 45-80 and
276-311; the two copies are textually identical) -/

/-- The test `re.match(r'^\d+\s', line)` of lines 66 and 297: one or more
digits followed by a whitespace character, anchored at the start.  A
shorter digit run is followed by a digit, which `\s` cannot match, so the
maximal digit run is exact. -/
def startsStep (s : List Char) : Bool :=
  !(s.takeWhile Char.isDigit).isEmpty &&
    (match s.dropWhile Char.isDigit with
     | c :: _ => isWs c
     | [] => false)

/-- The header row is the first line containing all of `"#"`, `"Action"`,
`"Start"`, `"End"` as substrings (lines 49-53 and 280-284). -/
def containsSub (s pat : List Char) : Bool :=
  (List.range (s.length + 1)).any (fun i => List.isPrefixOf pat (s.drop i))

/-- Whether a line is the recipe column-header row. -/
def isRecipeHeader (l : List Char) : Bool :=
  containsSub l ("#".toList) && containsSub l ("Action".toList) &&
    containsSub l ("Start".toList) && containsSub l ("End".toList)

/-- One step of the multi-line entry reconstruction (lines 60-76 and
291-307): strip the line, skip it if blank; a step-number-prefixed line
flushes the current entry (if any) and starts a new one; any other line is
appended to the current entry with a single separating space, or dropped
when no entry is open (`current_entry` empty). -/
def reconFold (st : List (List Char) × List Char) (line : List Char) :
    List (List Char) × List Char :=
  let acc := st.1
  let cur := st.2
  let l := strip line
  if l = [] then (acc, cur)
  else if startsStep l then
    (if cur = [] then acc else acc ++ [strip cur], l)
  else
    (acc, if cur = [] then cur else cur ++ ' ' :: l)

/-- Reconstruct the full multi-line entries from the data lines, flushing
the last open entry at the end (lines 56-80 and 287-311). -/
def reconstruct (ls : List (List Char)) : List (List Char) :=
  let st := ls.foldl reconFold ([], [])
  if st.2 = [] then st.1 else st.1 ++ [strip st.2]

/-! ## Recipe Entry Parser (`pdf_extract.py` lines 83-135 and 314-358) -/

/-- One record of the recipe table (dict keys `#`, `Action/Annotation`,
`Start Time`, `End Time`). -/
structure RecipeRecord where
  num : List Char
  action : List Char
  startTime : List Char
  endTime : List Char
deriving DecidableEq

/-- The match `re.match(r'^(\d+)\s+(.+)', entry)` of lines 85 and 316:
leading digits, one or more whitespace characters, then the remainder.
For the newline-free strings handled here `.+` extends to the end of the
entry; when everything after the digits is whitespace, backtracking leaves
the final whitespace character as the remainder (unreachable for the
stripped entries produced by the reconstructor). -/
def matchStep (s : List Char) : Option (List Char × List Char) :=
  let ds := s.takeWhile Char.isDigit
  let rest := s.dropWhile Char.isDigit
  if ds = [] then none
  else
    let ws := rest.takeWhile isWs
    let rem := rest.dropWhile isWs
    if ws = [] then none
    else if rem = [] then
      if 2 ≤ ws.length then some (ds, [ws.getLastD ' ']) else none
    else some (ds, rem)

/-- Entry parsing as in `extract_recipe_from_pdf` (lines 94-128): when at
least two time tokens occur in the remainder, the start and end times are
the last two matches; the action text is everything before the
second-to-last match, with any non-empty text after the last match appended
after a single space (lines 116-124).  Otherwise both times are empty and
the action is the whole remainder. -/
def entryRecordA (n rem : List Char) : RecipeRecord :=
  let ps := timePositions rem
  if 2 ≤ ps.length then
    let p2 := ps.getD (ps.length - 2) 0
    let p1 := ps.getD (ps.length - 1) 0
    let before := strip (rem.take p2)
    let after := strip (rem.drop (p1 + 8))
    { num := n
      action := if after = [] then before else before ++ ' ' :: after
      startTime := sub8 rem p2
      endTime := sub8 rem p1 }
  else { num := n, action := rem, startTime := [], endTime := [] }

/-- Entry parsing as in the recipe branch of `extract_tables_from_report`
(lines 325-351): identical to `entryRecordA` except that the action text is
only the text before the second-to-last time match (line 347); trailing
text after the last match is dropped. -/
def entryRecordB (n rem : List Char) : RecipeRecord :=
  let ps := timePositions rem
  if 2 ≤ ps.length then
    let p2 := ps.getD (ps.length - 2) 0
    let p1 := ps.getD (ps.length - 1) 0
    { num := n
      action := strip (rem.take p2)
      startTime := sub8 rem p2
      endTime := sub8 rem p1 }
  else { num := n, action := rem, startTime := [], endTime := [] }

/-- Parse one reconstructed entry: an entry whose head does not match the
step-number pattern is silently dropped (lines 86 and 317). -/
def parseEntry (mk : List Char → List Char → RecipeRecord) (e : List Char) :
    Option RecipeRecord :=
  (matchStep e).map (fun p => mk p.1 p.2)

/-- Shared recipe-section processing (identical in both functions): find
the header row among the lines after the dropped section label; if absent
emit nothing, else reconstruct the entries after it and parse each. -/
def recipeBody (mk : List Char → List Char → RecipeRecord)
    (rl : List (List Char)) : List RecipeRecord :=
  match rl.findIdx? isRecipeHeader with
  | none => []
  | some i => (reconstruct (rl.drop (i + 1))).filterMap (parseEntry mk)

/-- `extract_recipe_from_pdf` (lines 6-137), from the Line Stream onwards:
slice between the last `"4 Recipe"` and `"5 Trend Graphs"` markers (both
required, lines 26-37), drop the section label, and process. -/
def extractRecipeFromPdf (lines : List (List Char)) : List RecipeRecord :=
  let rl := sectionSlice lines ("4 Recipe".toList) ("5 Trend Graphs".toList)
  if rl = [] then [] else recipeBody entryRecordA (rl.drop 1)

/-- The recipe branch of `extract_tables_from_report` (lines 270-360). -/
def extractTablesRecipe (lines : List (List Char)) : List RecipeRecord :=
  let rl := sectionSlice lines ("4 Recipe".toList) ("5 Trend Graphs".toList)
  if rl = [] then [] else recipeBody entryRecordB (rl.drop 1)

/-! ## Temporary-file lifecycle of `MRO004Normalizer.process_pdf_report`
(`mro004_normalizer.py` lines 258-297); `MRO004.normalize`
(`measurements/MRO004.py` lines 232-284) has the identical structure. -/

/-- Fault injection for the fallible operations of `process_pdf_report`:
whether opening the raw file raises, whether creating the named temporary
file raises, whether copying the bytes into it raises
(`tmp_file.write(file.read())`, line 276), and whether the extraction or
record processing raises (lines 281-287). -/
structure PdfEnv where
  openFails : Bool
  tmpCreateFails : Bool
  copyFails : Bool
  extractFails : Bool
deriving DecidableEq

/-- Observable outcome of one `process_pdf_report` call: whether the outer
`except` handler fired (returning the `([], [])` fallback, line 297),
whether the temporary file was materialized, and whether it was removed
again before control returned to the caller. -/
structure PdfOutcome where
  returnedFallback : Bool
  tempCreated : Bool
  tempRemoved : Bool
deriving DecidableEq

/-- Control flow of `process_pdf_report` (lines 271-297).  The temporary
file is created with `delete=False` (line 273-275), so leaving the
`with tempfile.NamedTemporaryFile(...)` block does not delete it; the only
deletion is the `os.unlink(tmp_file_path)` in the `finally` of the inner
`try` (lines 291-293).  The byte copy at line 276 happens inside the
tempfile `with` block but before the inner `try` is entered, so an
exception there propagates to the outer `except` (line 295) without any
unlink.  Extraction or processing failures (lines 279-287) do pass through
the `finally` before the outer `except` catches them. -/
def processPdfReport (env : PdfEnv) : PdfOutcome :=
  if env.openFails then
    { returnedFallback := true, tempCreated := false, tempRemoved := false }
  else if env.tmpCreateFails then
    { returnedFallback := true, tempCreated := false, tempRemoved := false }
  else if env.copyFails then
    { returnedFallback := true, tempCreated := true, tempRemoved := false }
  else if env.extractFails then
    { returnedFallback := true, tempCreated := true, tempRemoved := true }
  else
    { returnedFallback := false, tempCreated := true, tempRemoved := true }

/-! ## Lemmas about the time-pattern scanner -/

/-- A character that can occur inside a time match: a digit or a colon. -/
def tcOK (o : Option Char) : Bool :=
  match o with
  | some c => c.isDigit || c == ':'
  | none => false

theorem dOK_tcOK {o : Option Char} (h : dOK o = true) : tcOK o = true := by
  cases o with
  | none => simp [dOK] at h
  | some c => simp [dOK] at h; simp [tcOK, h]

theorem cOK_tcOK {o : Option Char} (h : cOK o = true) : tcOK o = true := by
  cases o with
  | none => simp [cOK] at h
  | some c => simp [cOK] at h; simp [tcOK, h]

/-- `isTimeAt` only inspects the first eight characters. -/
theorem isTimeAt_eq_of_agree {u v : List Char}
    (h : ∀ j, j < 8 → u[j]? = v[j]?) : isTimeAt u = isTimeAt v := by
  unfold isTimeAt
  rw [h 0 (by omega), h 1 (by omega), h 2 (by omega), h 3 (by omega),
    h 4 (by omega), h 5 (by omega), h 6 (by omega), h 7 (by omega)]

/-- Every character inspected by a successful `isTimeAt` is a digit or a
colon. -/
theorem isTimeAt_char {u : List Char} (h : isTimeAt u = true) :
    ∀ j, j < 8 → tcOK u[j]? = true := by
  unfold isTimeAt at h
  simp only [Bool.and_eq_true] at h
  obtain ⟨⟨⟨⟨⟨⟨⟨h0, h1⟩, h2⟩, h3⟩, h4⟩, h5⟩, h6⟩, h7⟩ := h
  intro j hj
  interval_cases j
  · exact dOK_tcOK h0
  · exact dOK_tcOK h1
  · exact cOK_tcOK h2
  · exact dOK_tcOK h3
  · exact dOK_tcOK h4
  · exact cOK_tcOK h5
  · exact dOK_tcOK h6
  · exact dOK_tcOK h7

/-- A time match inside a `take` is a time match of the original list,
and needs at least 8 characters of room. -/
theorem isTimeAt_take {t : List Char} {k : Nat}
    (h : isTimeAt (t.take k) = true) : 8 ≤ k ∧ isTimeAt t = true := by
  have h8 : 8 ≤ k := by
    by_contra hk
    have hnone : (t.take k)[7]? = none :=
      List.getElem?_eq_none (by simp [List.length_take]; omega)
    have := isTimeAt_char h 7 (by omega)
    rw [hnone] at this
    simp [tcOK] at this
  refine ⟨h8, ?_⟩
  have heq : isTimeAt (t.take k) = isTimeAt t := by
    apply isTimeAt_eq_of_agree
    intro j hj
    rw [List.getElem?_take, if_pos (by omega)]
  rw [← heq]; exact h

/-- Skipping `k` positions equals restarting on the dropped list. -/
theorem timeAux_skip : ∀ (k : Nat) (s : List Char) (i : Nat),
    timeAux s i k = timeAux (s.drop k) (i + k) 0 := by
  intro k
  induction k with
  | zero => intro s i; simp
  | succ k ih =>
    intro s i
    cases s with
    | nil => simp [timeAux]
    | cons c rest =>
      have : timeAux (c :: rest) i (k + 1) = timeAux rest (i + 1) k := rfl
      rw [this, ih rest (i + 1), List.drop_succ_cons]
      congr 1
      omega

/-- If no position of `s` starts a time match the scan is empty. -/
theorem timeAux_nil_of_noOcc : ∀ (s : List Char) (i : Nat),
    (∀ q, isTimeAt (s.drop q) = false) → timeAux s i 0 = [] := by
  intro s
  induction s with
  | nil => intro i _; rfl
  | cons c rest ih =>
    intro i h
    have h0 : isTimeAt (c :: rest) = false := by simpa using h 0
    have hrec : ∀ q, isTimeAt (rest.drop q) = false := fun q => by
      simpa using h (q + 1)
    simp [timeAux, h0]
    exact ih (i + 1) hrec

/-- If the scan is empty no position of `s` starts a time match. -/
theorem noOcc_of_timeAux_nil : ∀ (s : List Char) (i : Nat),
    timeAux s i 0 = [] → ∀ q, isTimeAt (s.drop q) = false := by
  intro s
  induction s with
  | nil =>
    intro i _ q
    have : (List.drop q ([] : List Char)) = [] := by simp
    rw [this]; rfl
  | cons c rest ih =>
    intro i h q
    cases h0 : isTimeAt (c :: rest) with
    | true => simp [timeAux, h0] at h
    | false =>
      cases q with
      | zero => simpa using h0
      | succ q =>
        simp only [List.drop_succ_cons]
        refine ih (i + 1) ?_ q
        simpa [timeAux, h0] using h

/-- Inversion of a non-empty scan: the head is the first match position,
nothing before it matches, and the tail is the scan of the remainder
beyond the match. -/
theorem timeAux_cons_inv : ∀ (s : List Char) (i p : Nat) (ps : List Nat),
    timeAux s i 0 = p :: ps →
    i ≤ p ∧ isTimeAt (s.drop (p - i)) = true ∧
      (∀ q, q < p - i → isTimeAt (s.drop q) = false) ∧
      timeAux (s.drop (p - i + 8)) (p + 8) 0 = ps := by
  intro s
  induction s with
  | nil => intro i p ps h; simp [timeAux] at h
  | cons c rest ih =>
    intro i p ps h
    cases h0 : isTimeAt (c :: rest) with
    | true =>
      simp only [timeAux, h0, if_true] at h
      obtain ⟨rfl, hps⟩ : i = p ∧ timeAux rest (i + 1) 7 = ps := by
        have := List.cons.injEq i (timeAux rest (i + 1) 7) p ps ▸ h
        exact ⟨this.1, this.2⟩
      refine ⟨Nat.le_refl _, ?_, ?_, ?_⟩
      · simpa [Nat.sub_self] using h0
      · intro q hq; omega
      · rw [Nat.sub_self]
        have hskip := timeAux_skip 7 rest (i + 1)
        have hdrop : (c :: rest).drop (0 + 8) = rest.drop 7 := by simp
        rw [hdrop, ← hps, hskip]
    | false =>
      simp only [timeAux, h0, if_false] at h
      obtain ⟨h1, h2, h3, h4⟩ := ih (i + 1) p ps h
      have hsub : ∀ m : Nat, (c :: rest).drop (p - i + m) = rest.drop (p - (i + 1) + m) := by
        intro m
        obtain ⟨k, hk⟩ : ∃ k, p - i = k + 1 := ⟨p - i - 1, by omega⟩
        rw [hk, show k + 1 + m = (k + m) + 1 by omega, List.drop_succ_cons]
        congr 1
        omega
      refine ⟨by omega, ?_, ?_, ?_⟩
      · have := hsub 0
        simp only [Nat.add_zero] at this
        rw [this]; exact h2
      · intro q hq
        cases q with
        | zero => simpa using h0
        | succ q =>
          simp only [List.drop_succ_cons]
          exact h3 q (by omega)
      · rw [hsub 8]; exact h4

/-- Occurrence-freeness transfers along an extra `drop`. -/
theorem noOcc_drop {s : List Char}
    (h : ∀ q, isTimeAt (s.drop q) = false) (k : Nat) :
    ∀ q, isTimeAt ((s.drop k).drop q) = false := by
  intro q
  rw [List.drop_drop]
  exact h (k + q)

/-- A prefix by `take` of a region with no match positions below `n` has
no match positions at all. -/
theorem noOcc_take {s : List Char} {n : Nat}
    (h : ∀ q, q < n → isTimeAt (s.drop q) = false) :
    ∀ q, isTimeAt ((s.take n).drop q) = false := by
  intro q
  cases hq : isTimeAt ((s.take n).drop q) with
  | false => rfl
  | true =>
    exfalso
    rw [List.drop_take] at hq
    obtain ⟨h8, ht⟩ := isTimeAt_take hq
    have := h q (by omega)
    rw [this] at ht
    exact Bool.noConfusion ht

theorem dropWhile_as_drop (p : Char → Bool) (l : List Char) :
    l.dropWhile p = l.drop (l.takeWhile p).length := by
  induction l with
  | nil => rfl
  | cons c rest ih =>
    by_cases h : p c
    · simp [List.dropWhile_cons, List.takeWhile_cons, h, ih]
    · simp [List.dropWhile_cons, List.takeWhile_cons, h]

/-- `rtrim` is an initial segment of its argument. -/
theorem rtrim_eq_take (s : List Char) : rtrim s = s.take (rtrim s).length := by
  have hdecomp : s = rtrim s ++ (s.reverse.takeWhile isWs).reverse := by
    unfold rtrim
    conv_lhs => rw [← List.reverse_reverse s,
      ← List.takeWhile_append_dropWhile isWs s.reverse]
    rw [List.reverse_append]
  have h2 := List.take_left (rtrim s) ((s.reverse.takeWhile isWs).reverse)
  rw [← hdecomp] at h2
  exact h2.symm

theorem noOcc_ltrim {s : List Char}
    (h : ∀ q, isTimeAt (s.drop q) = false) :
    ∀ q, isTimeAt ((ltrim s).drop q) = false := by
  unfold ltrim
  rw [dropWhile_as_drop]
  exact noOcc_drop h _

theorem noOcc_rtrim {s : List Char}
    (h : ∀ q, isTimeAt (s.drop q) = false) :
    ∀ q, isTimeAt ((rtrim s).drop q) = false := by
  rw [rtrim_eq_take s]
  exact noOcc_take (fun q _ => h q)

/-- Stripping whitespace cannot create a time match. -/
theorem noOcc_strip {s : List Char}
    (h : ∀ q, isTimeAt (s.drop q) = false) :
    ∀ q, isTimeAt ((strip s).drop q) = false := by
  unfold strip
  exact noOcc_rtrim (noOcc_ltrim h)

/-- Joining two match-free pieces with a single space cannot create a
time match: no match fits before the space, none can contain the space,
and none fits after it. -/
theorem noOcc_append_sep {a b : List Char}
    (ha : ∀ q, isTimeAt (a.drop q) = false)
    (hb : ∀ q, isTimeAt (b.drop q) = false) :
    ∀ q, isTimeAt ((a ++ ' ' :: b).drop q) = false := by
  intro q
  cases hq : isTimeAt ((a ++ ' ' :: b).drop q) with
  | false => rfl
  | true =>
    exfalso
    by_cases hc1 : q + 8 ≤ a.length
    · have heq : isTimeAt ((a ++ ' ' :: b).drop q) = isTimeAt (a.drop q) := by
        apply isTimeAt_eq_of_agree
        intro j hj
        rw [List.getElem?_drop, List.getElem?_drop, List.getElem?_append,
          if_pos (by omega)]
      rw [heq, ha q] at hq
      exact Bool.noConfusion hq
    · by_cases hc2 : q ≤ a.length
      · have hsep : ((a ++ ' ' :: b).drop q)[a.length - q]? = some ' ' := by
          rw [List.getElem?_drop, List.getElem?_append, if_neg (by omega)]
          rw [show q + (a.length - q) - a.length = 0 by omega]
          exact List.getElem?_cons_zero
        have hch := isTimeAt_char hq (a.length - q) (by omega)
        rw [hsep] at hch
        simp [tcOK] at hch
      · have heq : isTimeAt ((a ++ ' ' :: b).drop q) =
            isTimeAt (b.drop (q - a.length - 1)) := by
          apply isTimeAt_eq_of_agree
          intro j hj
          rw [List.getElem?_drop, List.getElem?_drop, List.getElem?_append,
            if_neg (by omega),
            show q + j - a.length = (q - a.length - 1 + j) + 1 by omega,
            List.getElem?_cons_succ]
        rw [heq, hb _] at hq
        exact Bool.noConfusion hq

/-- Characterization of a scan returning exactly two positions: nothing
matches before the first one, the second lies at least 8 further, and
nothing matches beyond the end of the second match. -/
theorem timePositions_pair {rem : List Char} {p0 p1 : Nat}
    (h : timePositions rem = [p0, p1]) :
    (∀ q, q < p0 → isTimeAt (rem.drop q) = false) ∧
      p0 + 8 ≤ p1 ∧
      (∀ q, isTimeAt ((rem.drop (p1 + 8)).drop q) = false) := by
  unfold timePositions at h
  obtain ⟨h0le, hocc0, hbefore, hrest⟩ := timeAux_cons_inv rem 0 p0 [p1] h
  simp only [Nat.sub_zero] at hocc0 hbefore hrest
  obtain ⟨h1le, hocc1, hmid, hrest2⟩ :=
    timeAux_cons_inv (rem.drop (p0 + 8)) (p0 + 8) p1 [] hrest
  have hempty := noOcc_of_timeAux_nil _ _ hrest2
  refine ⟨hbefore, h1le, ?_⟩
  intro q
  have hd : (rem.drop (p0 + 8)).drop (p1 - (p0 + 8) + 8) = rem.drop (p1 + 8) := by
    rw [List.drop_drop]
    congr 1
    omega
  rw [← hd]
  exact hempty q

/-! ## Claim C1 -/

/-- C1, counterexample: the chemistry builder emits a record for a data row
whose actual-moles token is `0` (value not strictly positive), refuting the
claimed strictly-positive filter.  Both the code's own column (`parts[-4]`)
and the spec's column (`parts[-5]`) hold `0` in this row. -/
theorem c1_counterexample :
    extractTablesChemistry
        ["2 Chemistry".toList, "h1".toList, "h2".toList,
          "CeO2 Other 50 g/mol - 0 0 g 100 w/w%".toList, "3 Setup".toList] =
      [{ chemical := "CeO2 Other".toList, typeCol := "50".toList,
         molWeight := "- g/mol".toList, stoicCoeff := "0".toList,
         actualMoles := "0".toList, actualAmount := "100 g".toList,
         concNotes := "w/w%".toList }] := by decide

/-- C1, amended: the chemistry branch performs no numeric parsing and no
positivity filtering at all — every line of the data region whose stripped
content is non-blank and splits into at least 8 whitespace tokens emits a
record (which then appears in the output), and a line that is blank or has
fewer than 8 tokens emits none. -/
theorem c1_amended : ∀ (lines : List (List Char)) (l : List Char),
    l ∈ ((sectionSlice lines ("2 Chemistry".toList) ("3 Setup".toList)).drop 1).drop 2 →
    ((strip l ≠ [] ∧ 8 ≤ (splitWs (strip l)).length) →
        ∃ r, chemRow l = some r ∧ r ∈ extractTablesChemistry lines) ∧
    ((strip l = [] ∨ (splitWs (strip l)).length < 8) → chemRow l = none) := by
  intro lines l hmem
  constructor
  · rintro ⟨h1, h2⟩
    have hrow : chemRow l = some
        { chemical := List.intercalate [' ']
            ((splitWs (strip l)).take ((splitWs (strip l)).length - 8))
          typeCol := (splitWs (strip l)).getD ((splitWs (strip l)).length - 8) []
          molWeight := (splitWs (strip l)).getD ((splitWs (strip l)).length - 6) [] ++
            ' ' :: (splitWs (strip l)).getD ((splitWs (strip l)).length - 7) []
          stoicCoeff := (splitWs (strip l)).getD ((splitWs (strip l)).length - 5) []
          actualMoles := (splitWs (strip l)).getD ((splitWs (strip l)).length - 4) []
          actualAmount := (splitWs (strip l)).getD ((splitWs (strip l)).length - 2) [] ++
            ' ' :: (splitWs (strip l)).getD ((splitWs (strip l)).length - 3) []
          concNotes := (splitWs (strip l)).getD ((splitWs (strip l)).length - 1) [] } := by
      simp only [chemRow]
      rw [if_neg h1, if_pos h2]
    refine ⟨_, hrow, ?_⟩
    unfold extractTablesChemistry
    by_cases hcl : sectionSlice lines ("2 Chemistry".toList) ("3 Setup".toList) = []
    · rw [hcl] at hmem
      simp at hmem
    · simp only [hcl, if_false]
      exact List.mem_filterMap.mpr ⟨l, hmem, hrow⟩
  · intro h
    rcases h with h | h
    · simp only [chemRow]
      rw [if_pos h]
    · by_cases hs : strip l = []
      · simp only [chemRow]
        rw [if_pos hs]
      · simp only [chemRow]
        rw [if_neg hs, if_neg (by omega)]

/-- C1, witness for the amended theorem at a concrete zero-moles row. -/
theorem c1_amended_witness :
    ∃ r, chemRow ("CeO2 Other 50 g/mol - 0 0 g 100 w/w%".toList) = some r ∧
      r ∈ extractTablesChemistry
        ["2 Chemistry".toList, "h1".toList, "h2".toList,
          "CeO2 Other 50 g/mol - 0 0 g 100 w/w%".toList, "3 Setup".toList] :=
  (c1_amended
      ["2 Chemistry".toList, "h1".toList, "h2".toList,
        "CeO2 Other 50 g/mol - 0 0 g 100 w/w%".toList, "3 Setup".toList]
      ("CeO2 Other 50 g/mol - 0 0 g 100 w/w%".toList)
      (by decide)).1 ⟨by decide, by decide⟩

/-! ## Claim C2 -/

/-- C2, code evaluation at the spec's scenario line: contrary to the
claimed token interpretation (and to the comments at `pdf_extract.py`
lines 199-211), the code returns `Chemical = "EuCl3 Other"`,
`Mol Weight = "- g/mol"`, `Actual Moles = "20"`, `Actual Amount = "100 g"`
instead of `"EuCl3"`, `"50 g/mol"`, `"0.4"`, `"20 g"`. -/
theorem c2_code_eval :
    extractTablesChemistry
        ["2 Chemistry".toList,
          "Name Type MolWt Stoic Moles Amount Unit Conc".toList,
          "(header2)".toList,
          "EuCl3 Other 50 g/mol - 0.4 20 g 100 w/w%".toList,
          "3 Setup".toList] =
      [{ chemical := "EuCl3 Other".toList, typeCol := "50".toList,
         molWeight := "- g/mol".toList, stoicCoeff := "0.4".toList,
         actualMoles := "20".toList, actualAmount := "100 g".toList,
         concNotes := "w/w%".toList }] ∧
    ("EuCl3 Other".toList ≠ "EuCl3".toList) ∧
    ("- g/mol".toList ≠ "50 g/mol".toList) ∧
    ("20".toList ≠ "0.4".toList) ∧
    ("100 g".toList ≠ "20 g".toList) := by decide

/-! ## Claim C5 -/

/-- C5, counterexample: `extract_recipe_from_pdf` yields zero records for a
line stream containing the `"4 Recipe"` marker, a header row and a
parseable step but no trailing `"5 Trend Graphs"` marker; adding the
trailing marker (only) makes the very same step appear.  End-of-stream is
not treated as the section end. -/
theorem c5_counterexample :
    extractRecipeFromPdf
        ["4 Recipe".toList, "# Action Start End".toList,
          "1 mix 00:00:01 00:00:02".toList] = [] ∧
    extractRecipeFromPdf
        ["4 Recipe".toList, "# Action Start End".toList,
          "1 mix 00:00:01 00:00:02".toList, "5 Trend Graphs".toList] =
      [{ num := "1".toList, action := "mix".toList,
         startTime := "00:00:01".toList, endTime := "00:00:02".toList }] := by
  decide

/-- C5, amended: whenever a bounding marker of a section is absent the
affected builders yield zero records without error, and this includes the
recipe-only path `extract_recipe_from_pdf`, which requires the trailing
`"5 Trend Graphs"` marker just like the combined extractor. -/
theorem c5_amended : ∀ (lines : List (List Char)),
    (findLastIdx lines ("5 Trend Graphs".toList) = none →
        extractRecipeFromPdf lines = [] ∧ extractTablesRecipe lines = []) ∧
    (findLastIdx lines ("4 Recipe".toList) = none →
        extractRecipeFromPdf lines = [] ∧ extractTablesRecipe lines = [] ∧
          extractTablesSetup lines = []) ∧
    (findLastIdx lines ("3 Setup".toList) = none →
        extractTablesSetup lines = [] ∧ extractTablesChemistry lines = []) ∧
    (findLastIdx lines ("2 Chemistry".toList) = none →
        extractTablesChemistry lines = []) := by
  intro lines
  have hslice : ∀ m1 m2 : List Char,
      (findLastIdx lines m1 = none ∨ findLastIdx lines m2 = none) →
      sectionSlice lines m1 m2 = [] := by
    intro m1 m2 h
    unfold sectionSlice
    rcases h with h | h
    · rw [h]
    · rw [h]
      cases findLastIdx lines m1 <;> rfl
  refine ⟨fun h => ⟨?_, ?_⟩, fun h => ⟨?_, ?_, ?_⟩, fun h => ⟨?_, ?_⟩, fun h => ?_⟩
  · unfold extractRecipeFromPdf
    rw [hslice _ _ (Or.inr h)]
    rfl
  · unfold extractTablesRecipe
    rw [hslice _ _ (Or.inr h)]
    rfl
  · unfold extractRecipeFromPdf
    rw [hslice _ _ (Or.inl h)]
    rfl
  · unfold extractTablesRecipe
    rw [hslice _ _ (Or.inl h)]
    rfl
  · unfold extractTablesSetup
    rw [hslice _ _ (Or.inr h)]
    rfl
  · unfold extractTablesSetup
    rw [hslice _ _ (Or.inl h)]
    rfl
  · unfold extractTablesChemistry
    rw [hslice _ _ (Or.inr h)]
    rfl
  · unfold extractTablesChemistry
    rw [hslice _ _ (Or.inl h)]
    rfl

/-- C5, witness: the amended theorem applied to a stream with a recipe
marker but no trailing marker. -/
theorem c5_amended_witness :
    extractRecipeFromPdf
        ["4 Recipe".toList, "# Action Start End".toList,
          "2 stir 01:00:00 02:00:00".toList] = [] ∧
    extractTablesRecipe
        ["4 Recipe".toList, "# Action Start End".toList,
          "2 stir 01:00:00 02:00:00".toList] = [] :=
  (c5_amended
      ["4 Recipe".toList, "# Action Start End".toList,
        "2 stir 01:00:00 02:00:00".toList]).1 (by decide)

/-! ## Claim C6 -/

/-- C6: a reconstructed entry whose remainder contains fewer than two time
tokens yields empty start and end times and keeps the whole remainder as
the action text (in both parser variants); in particular the entry
`"7 Heat to target and hold"` yields exactly the claimed record through the
full recipe branch. -/
theorem c6_theorem :
    (∀ n rem : List Char, (timePositions rem).length < 2 →
        entryRecordA n rem =
          { num := n, action := rem, startTime := [], endTime := [] } ∧
        entryRecordB n rem =
          { num := n, action := rem, startTime := [], endTime := [] }) ∧
    extractTablesRecipe
        ["4 Recipe".toList, "# Action Start End".toList,
          "7 Heat to target and hold".toList, "5 Trend Graphs".toList] =
      [{ num := "7".toList, action := "Heat to target and hold".toList,
         startTime := [], endTime := [] }] := by
  constructor
  · intro n rem h
    constructor
    · simp only [entryRecordA]
      rw [if_neg (by omega)]
    · simp only [entryRecordB]
      rw [if_neg (by omega)]
  · decide

/-- C6, witness: the general part applied to a concrete one-time-token
remainder. -/
theorem c6_witness :
    entryRecordA ("7".toList) ("pause at 01:02:03".toList) =
      { num := "7".toList, action := "pause at 01:02:03".toList,
        startTime := [], endTime := [] } ∧
    entryRecordB ("7".toList) ("pause at 01:02:03".toList) =
      { num := "7".toList, action := "pause at 01:02:03".toList,
        startTime := [], endTime := [] } :=
  c6_theorem.1 ("7".toList) ("pause at 01:02:03".toList) (by decide)

/-! ## Claim C7 -/

/-- C7, code evaluation: when copying the bytes into the temporary file
fails, `process_pdf_report` returns through the outer exception handler
with the temporary file created but never removed; on the
extraction-failure and success paths the file is removed. -/
theorem c7_code_eval :
    (processPdfReport
        { openFails := false, tmpCreateFails := false,
          copyFails := true, extractFails := false }).tempCreated = true ∧
    (processPdfReport
        { openFails := false, tmpCreateFails := false,
          copyFails := true, extractFails := false }).tempRemoved = false ∧
    (processPdfReport
        { openFails := false, tmpCreateFails := false,
          copyFails := true, extractFails := false }).returnedFallback = true ∧
    (processPdfReport
        { openFails := false, tmpCreateFails := false,
          copyFails := false, extractFails := true }).tempRemoved = true ∧
    (processPdfReport
        { openFails := false, tmpCreateFails := false,
          copyFails := false, extractFails := false }).tempRemoved = true := by
  decide

/-! ## Claim C9 -/

/-- C9: lines located before the first step-number-prefixed line (in
particular every non-blank such line) are silently discarded by the
reconstructor — removing them from the front of the data lines does not
change the reconstructed entries. -/
theorem c9_theorem : ∀ (pre rest : List (List Char)),
    (∀ l ∈ pre, startsStep (strip l) = false) →
    reconstruct (pre ++ rest) = reconstruct rest := by
  intro pre rest h
  have hfold : pre.foldl reconFold ([], []) = ([], []) := by
    induction pre with
    | nil => rfl
    | cons l pre ih =>
      have hl : reconFold ([], []) l = ([], []) := by
        unfold reconFold
        by_cases hb : strip l = []
        · rw [if_pos hb]
        · rw [if_neg hb, if_neg (by simp [h l (by simp)])]
          rfl
      rw [List.foldl_cons, hl]
      exact ih (fun l hl => h l (by simp [hl]))
  unfold reconstruct
  rw [List.foldl_append, hfold]

/-- C9, witness: two junk lines (one resembling a wrapped header fragment,
one blank) in front of a step line contribute nothing. -/
theorem c9_witness :
    reconstruct
        (["(wrapped header text)".toList, "   ".toList] ++
          ["7 Heat to target and hold".toList]) =
      reconstruct ["7 Heat to target and hold".toList] :=
  c9_theorem ["(wrapped header text)".toList, "   ".toList]
    ["7 Heat to target and hold".toList] (by decide)

/-! ## Claim C3 -/

/-- C3, counterexample: on the same line stream the two recipe paths
disagree on the action text of an entry with trailing text after the last
time token — `extract_recipe_from_pdf` appends the trailing `more`, the
recipe branch of `extract_tables_from_report` drops it.  The claim that
both append is therefore false. -/
theorem c3_counterexample :
    extractRecipeFromPdf
        ["4 Recipe".toList, "# Action Start End".toList,
          "1 mix 00:00:01 00:00:02 more".toList, "5 Trend Graphs".toList] =
      [{ num := "1".toList, action := "mix more".toList,
         startTime := "00:00:01".toList, endTime := "00:00:02".toList }] ∧
    extractTablesRecipe
        ["4 Recipe".toList, "# Action Start End".toList,
          "1 mix 00:00:01 00:00:02 more".toList, "5 Trend Graphs".toList] =
      [{ num := "1".toList, action := "mix".toList,
         startTime := "00:00:01".toList, endTime := "00:00:02".toList }] ∧
    ("mix".toList : List Char) ≠ "mix more".toList := by decide

/-- C3, amended: for an entry with at least two time tokens both parsers
take the start time from the second-to-last and the end time from the last
time match; only `extract_recipe_from_pdf` (`entryRecordA`) appends
non-empty text following the last time token to the action text, while the
recipe branch of `extract_tables_from_report` (`entryRecordB`) keeps only
the text before the second-to-last time token. -/
theorem c3_amended : ∀ (n rem : List Char), 2 ≤ (timePositions rem).length →
    (entryRecordA n rem).startTime =
      sub8 rem ((timePositions rem).getD ((timePositions rem).length - 2) 0) ∧
    (entryRecordA n rem).endTime =
      sub8 rem ((timePositions rem).getD ((timePositions rem).length - 1) 0) ∧
    (entryRecordB n rem).startTime = (entryRecordA n rem).startTime ∧
    (entryRecordB n rem).endTime = (entryRecordA n rem).endTime ∧
    (entryRecordA n rem).action =
      (if strip (rem.drop
            ((timePositions rem).getD ((timePositions rem).length - 1) 0 + 8)) = []
       then strip (rem.take
            ((timePositions rem).getD ((timePositions rem).length - 2) 0))
       else strip (rem.take
            ((timePositions rem).getD ((timePositions rem).length - 2) 0)) ++
          ' ' :: strip (rem.drop
            ((timePositions rem).getD ((timePositions rem).length - 1) 0 + 8))) ∧
    (entryRecordB n rem).action =
      strip (rem.take
        ((timePositions rem).getD ((timePositions rem).length - 2) 0)) := by
  intro n rem h
  refine ⟨?_, ?_, ?_, ?_, ?_, ?_⟩ <;>
    simp [entryRecordA, entryRecordB, h]

/-- C3, witness for the amended theorem at a concrete trailing-text
entry. -/
theorem c3_amended_witness :
    (entryRecordB ("1".toList) ("mix 00:00:01 00:00:02 more".toList)).action =
      strip (("mix 00:00:01 00:00:02 more".toList).take
        ((timePositions ("mix 00:00:01 00:00:02 more".toList)).getD
          ((timePositions ("mix 00:00:01 00:00:02 more".toList)).length - 2) 0)) :=
  (c3_amended ("1".toList) ("mix 00:00:01 00:00:02 more".toList)
    (by decide)).2.2.2.2.2

/-! ## Claim C4 -/

/-- C4, counterexample: an entry whose remainder contains exactly one time
token keeps that token inside the emitted action text (in both parser
variants), so rescanning the action text finds a time token. -/
theorem c4_counterexample :
    parseEntry entryRecordA ("7 do at 01:02:03".toList) =
      some { num := "7".toList, action := "do at 01:02:03".toList,
             startTime := [], endTime := [] } ∧
    parseEntry entryRecordB ("7 do at 01:02:03".toList) =
      some { num := "7".toList, action := "do at 01:02:03".toList,
             startTime := [], endTime := [] } ∧
    timePositions ("do at 01:02:03".toList) = [6] := by decide

/-- C4, amended: rescanning the emitted action text finds zero time tokens
for every entry whose remainder contains zero or exactly two time tokens
(for both parser variants); entries with one or at least three time tokens
can retain time tokens in the action text, as the counterexample shows. -/
theorem c4_theorem : ∀ (n rem : List Char),
    (timePositions rem).length = 0 ∨ (timePositions rem).length = 2 →
    timePositions (entryRecordA n rem).action = [] ∧
    timePositions (entryRecordB n rem).action = [] := by
  intro n rem h
  rcases h with h0 | h2
  · have hps : timePositions rem = [] := List.length_eq_zero.mp h0
    have hA : (entryRecordA n rem).action = rem := by
      simp [entryRecordA, hps]
    have hB : (entryRecordB n rem).action = rem := by
      simp [entryRecordB, hps]
    rw [hA, hB]
    exact ⟨hps, hps⟩
  · obtain ⟨p0, p1, hps⟩ : ∃ p0 p1, timePositions rem = [p0, p1] := by
      rcases hq : timePositions rem with _ | ⟨a, _ | ⟨b, _ | ⟨c, t⟩⟩⟩ <;>
        rw [hq] at h2 <;> simp at h2
      exact ⟨a, b, rfl⟩
    obtain ⟨hbef, hle, haft⟩ := timePositions_pair hps
    have hnoBefore : ∀ q, isTimeAt ((strip (rem.take p0)).drop q) = false :=
      noOcc_strip (noOcc_take hbef)
    have hnoAfter : ∀ q, isTimeAt ((strip (rem.drop (p1 + 8))).drop q) = false :=
      noOcc_strip haft
    have hA : (entryRecordA n rem).action =
        if strip (rem.drop (p1 + 8)) = [] then strip (rem.take p0)
        else strip (rem.take p0) ++ ' ' :: strip (rem.drop (p1 + 8)) := by
      simp [entryRecordA, hps]
    have hB : (entryRecordB n rem).action = strip (rem.take p0) := by
      simp [entryRecordB, hps]
    constructor
    · rw [hA]
      by_cases hcase : strip (rem.drop (p1 + 8)) = []
      · rw [if_pos hcase]
        exact timeAux_nil_of_noOcc _ 0 hnoBefore
      · rw [if_neg hcase]
        exact timeAux_nil_of_noOcc _ 0 (noOcc_append_sep hnoBefore hnoAfter)
    · rw [hB]
      exact timeAux_nil_of_noOcc _ 0 hnoBefore

/-- C4, witness for the amended theorem at a concrete two-time-token
entry with trailing text. -/
theorem c4_witness :
    timePositions
        (entryRecordA ("1".toList) ("mix 00:00:01 00:00:02 more".toList)).action = [] ∧
    timePositions
        (entryRecordB ("1".toList) ("mix 00:00:01 00:00:02 more".toList)).action = [] :=
  c4_theorem ("1".toList) ("mix 00:00:01 00:00:02 more".toList) (by decide)

/-! ## Claim C8 -/

/-- C8, counterexample: for an entry with a single time token and trailing
text, both paths emit the identical action text (the full remainder) even
though non-empty text follows the entry's last time token, refuting the
claimed equivalence criterion. -/
theorem c8_counterexample :
    extractRecipeFromPdf
        ["4 Recipe".toList, "# Action Start End".toList,
          "7 x 01:02:03 y".toList, "5 Trend Graphs".toList] =
      [{ num := "7".toList, action := "x 01:02:03 y".toList,
         startTime := [], endTime := [] }] ∧
    extractTablesRecipe
        ["4 Recipe".toList, "# Action Start End".toList,
          "7 x 01:02:03 y".toList, "5 Trend Graphs".toList] =
      [{ num := "7".toList, action := "x 01:02:03 y".toList,
         startTime := [], endTime := [] }] ∧
    timePositions ("x 01:02:03 y".toList) = [2] ∧
    strip (("x 01:02:03 y".toList).drop (2 + 8)) = "y".toList ∧
    ("y".toList : List Char) ≠ [] := by decide

theorem entry_proj_eq (f : RecipeRecord → List Char)
    (hf : ∀ n rem, f (entryRecordA n rem) = f (entryRecordB n rem)) :
    ∀ es : List (List Char),
      (es.filterMap (parseEntry entryRecordA)).map f =
        (es.filterMap (parseEntry entryRecordB)).map f := by
  intro es
  induction es with
  | nil => rfl
  | cons e es ih =>
    cases h : matchStep e with
    | none => simp [List.filterMap_cons, parseEntry, h, ih]
    | some p => simp [List.filterMap_cons, parseEntry, h, ih, hf]

theorem pipelines_proj_eq (f : RecipeRecord → List Char)
    (hf : ∀ n rem, f (entryRecordA n rem) = f (entryRecordB n rem))
    (lines : List (List Char)) :
    (extractRecipeFromPdf lines).map f = (extractTablesRecipe lines).map f := by
  unfold extractRecipeFromPdf extractTablesRecipe
  by_cases h :
      sectionSlice lines ("4 Recipe".toList) ("5 Trend Graphs".toList) = []
  · rw [if_pos h, if_pos h]
  · rw [if_neg h, if_neg h]
    unfold recipeBody
    cases (sectionSlice lines ("4 Recipe".toList)
        ("5 Trend Graphs".toList)).drop 1 |>.findIdx? isRecipeHeader with
    | none => rfl
    | some i => exact entry_proj_eq f hf _

theorem entry_num_eq (n rem : List Char) :
    (entryRecordA n rem).num = (entryRecordB n rem).num := by
  by_cases h : 2 ≤ (timePositions rem).length <;>
    simp [entryRecordA, entryRecordB, h]

theorem entry_start_eq (n rem : List Char) :
    (entryRecordA n rem).startTime = (entryRecordB n rem).startTime := by
  by_cases h : 2 ≤ (timePositions rem).length <;>
    simp [entryRecordA, entryRecordB, h]

theorem entry_end_eq (n rem : List Char) :
    (entryRecordA n rem).endTime = (entryRecordB n rem).endTime := by
  by_cases h : 2 ≤ (timePositions rem).length <;>
    simp [entryRecordA, entryRecordB, h]

/-- C8, amended: on every line stream the two recipe paths emit the same
sequences of step numbers, start times and end times; for an entry with at
least two time tokens the action texts agree exactly when no non-empty text
follows the last time token, and for an entry with fewer than two time
tokens the action texts always agree (both equal the remainder). -/
theorem c8_amended : ∀ (lines : List (List Char)),
    (extractRecipeFromPdf lines).map RecipeRecord.num =
      (extractTablesRecipe lines).map RecipeRecord.num ∧
    (extractRecipeFromPdf lines).map RecipeRecord.startTime =
      (extractTablesRecipe lines).map RecipeRecord.startTime ∧
    (extractRecipeFromPdf lines).map RecipeRecord.endTime =
      (extractTablesRecipe lines).map RecipeRecord.endTime ∧
    (∀ n rem : List Char, 2 ≤ (timePositions rem).length →
      ((entryRecordA n rem).action = (entryRecordB n rem).action ↔
        strip (rem.drop
          ((timePositions rem).getD ((timePositions rem).length - 1) 0 + 8)) = [])) ∧
    (∀ n rem : List Char, (timePositions rem).length < 2 →
      (entryRecordA n rem).action = (entryRecordB n rem).action) := by
  intro lines
  refine ⟨pipelines_proj_eq _ entry_num_eq lines,
    pipelines_proj_eq _ entry_start_eq lines,
    pipelines_proj_eq _ entry_end_eq lines, ?_, ?_⟩
  · intro n rem h
    have hA : (entryRecordA n rem).action =
        if strip (rem.drop
            ((timePositions rem).getD ((timePositions rem).length - 1) 0 + 8)) = []
        then strip (rem.take
            ((timePositions rem).getD ((timePositions rem).length - 2) 0))
        else strip (rem.take
            ((timePositions rem).getD ((timePositions rem).length - 2) 0)) ++
          ' ' :: strip (rem.drop
            ((timePositions rem).getD ((timePositions rem).length - 1) 0 + 8)) := by
      simp [entryRecordA, h]
    have hB : (entryRecordB n rem).action =
        strip (rem.take
          ((timePositions rem).getD ((timePositions rem).length - 2) 0)) := by
      simp [entryRecordB, h]
    rw [hA, hB]
    by_cases hcase : strip (rem.drop
        ((timePositions rem).getD ((timePositions rem).length - 1) 0 + 8)) = []
    · rw [if_pos hcase]
      exact iff_of_true rfl hcase
    · rw [if_neg hcase]
      refine iff_of_false ?_ hcase
      intro heq
      have hlen := congrArg List.length heq
      rw [List.length_append, List.length_cons] at hlen
      omega
  · intro n rem h
    simp [entryRecordA, entryRecordB, Nat.not_le.mpr h]

/-- C8, witness: the fewer-than-two-tokens part applied to a concrete
entry. -/
theorem c8_amended_witness :
    (entryRecordA ("7".toList) ("x 01:02:03 y".toList)).action =
      (entryRecordB ("7".toList) ("x 01:02:03 y".toList)).action :=
  (c8_amended []).2.2.2.2 ("7".toList) ("x 01:02:03 y".toList) (by decide)

/-! ## Claim C10 -/

/-- C10, counterexample: the line `"Ab : x"` has a space (and hence a
non-letter) in its pre-colon text, yet it is recognized as a new component
(the regex allows whitespace between the letters and the colon): the
emitted record splits the line at the colon instead of taking the whole
line as a standalone component name. -/
theorem c10_counterexample :
    (' ' ∈ ("Ab : x".toList).takeWhile (fun c => !(c == ':'))) ∧
    isNewComponent ("Ab : x".toList) = true ∧
    extractTablesSetup ["3 Setup".toList, "Ab : x".toList, "4 Recipe".toList] =
      [{ component := "Ab".toList, description := "x".toList }] ∧
    ({ component := "Ab".toList, description := "x".toList } : SetupRecord) ≠
      { component := "Ab : x".toList, description := [] } := by decide

theorem all_takeWhile_append {p : Char → Bool} {L t : List Char}
    (hL : ∀ c ∈ L, p c = true) :
    (L ++ t).takeWhile p = L ++ t.takeWhile p ∧
      (L ++ t).dropWhile p = t.dropWhile p := by
  induction L with
  | nil => simp
  | cons c L ih =>
    have hc : p c = true := hL c (by simp)
    obtain ⟨h1, h2⟩ := ih (fun d hd => hL d (by simp [hd]))
    constructor
    · simp [List.takeWhile_cons, hc, h1]
    · simp [List.dropWhile_cons, hc, h2]

theorem ws_not_alpha {c : Char} (h : isWs c = true) : c.isAlpha = false := by
  unfold isWs at h
  simp only [Bool.or_eq_true, beq_iff_eq] at h
  rcases h with ((((rfl | rfl) | rfl) | rfl) | rfl) | rfl <;> decide

/-- C10, amended: a line starts a new component exactly when it consists of
one or more ASCII letters, then optional whitespace, then a colon (and
anything after); whitespace immediately before the colon is allowed, so
only a digit or other non-letter, non-whitespace material before the colon
prevents recognition.  An unrecognized non-blank line is appended to the
open component's description; with no open component it becomes a
standalone component name unless it ends with the literal `Description`,
in which case it is dropped. -/
theorem c10_amended : ∀ (l : List Char),
    (isNewComponent l = true ↔
      ∃ L W r : List Char, l = L ++ (W ++ ':' :: r) ∧ L ≠ [] ∧
        (∀ c ∈ L, c.isAlpha = true) ∧ (∀ c ∈ W, isWs c = true)) ∧
    (isNewComponent (strip l) = false → strip l ≠ [] →
      (∀ c desc acc, setupFold (some c, desc, acc) l =
          (some c, desc ++ ' ' :: strip l, acc)) ∧
      (∀ desc acc, ("Description".toList).isSuffixOf (strip l) = false →
          setupFold (none, desc, acc) l = (some (strip l), [], acc)) ∧
      (∀ desc acc, ("Description".toList).isSuffixOf (strip l) = true →
          setupFold (none, desc, acc) l = (none, desc, acc))) := by
  intro l
  constructor
  · constructor
    · intro h
      unfold isNewComponent at h
      simp only [Bool.and_eq_true] at h
      obtain ⟨h1, h2⟩ := h
      obtain ⟨r, hr⟩ : ∃ r,
          (l.dropWhile Char.isAlpha).dropWhile isWs = ':' :: r := by
        cases hX : (l.dropWhile Char.isAlpha).dropWhile isWs with
        | nil => rw [hX] at h2; exact absurd h2 (by decide)
        | cons c t =>
          rw [hX] at h2
          have hc : c = ':' := by simpa using h2
          exact ⟨t, by rw [hc]⟩
      refine ⟨l.takeWhile Char.isAlpha,
        (l.dropWhile Char.isAlpha).takeWhile isWs, r, ?_, ?_, ?_, ?_⟩
      · rw [← hr, List.takeWhile_append_dropWhile,
          List.takeWhile_append_dropWhile]
      · intro hempty
        rw [hempty] at h1
        exact absurd h1 (by simp)
      · intro c hc
        exact List.mem_takeWhile_imp hc
      · intro c hc
        exact List.mem_takeWhile_imp hc
    · rintro ⟨L, W, r, rfl, hL, hLa, hW⟩
      unfold isNewComponent
      obtain ⟨ht, hd⟩ := all_takeWhile_append (p := Char.isAlpha)
        (t := W ++ ':' :: r) hLa
      have hWtail : (W ++ ':' :: r).takeWhile Char.isAlpha = [] := by
        cases W with
        | nil => simp [List.takeWhile_cons]
        | cons w W' =>
          have hw : Char.isAlpha w = false := ws_not_alpha (hW w (by simp))
          simp [List.takeWhile_cons, hw]
      have hWdrop : (W ++ ':' :: r).dropWhile Char.isAlpha = W ++ ':' :: r := by
        cases W with
        | nil => simp [List.dropWhile_cons]
        | cons w W' =>
          have hw : Char.isAlpha w = false := ws_not_alpha (hW w (by simp))
          simp [List.dropWhile_cons, hw]
      obtain ⟨_, hd2⟩ := all_takeWhile_append (p := isWs) (t := ':' :: r) hW
      have hcolon : (':' :: r).dropWhile isWs = ':' :: r := rfl
      rw [ht, hWtail, hd, hWdrop, hd2, hcolon]
      cases L with
      | nil => exact absurd rfl hL
      | cons a L' => simp
  · intro hnc hne
    refine ⟨?_, ?_, ?_⟩
    · intro c desc acc
      simp only [setupFold]
      rw [if_neg hne, if_neg (by simp [hnc])]
    · intro desc acc hsuf
      simp only [setupFold]
      rw [if_neg hne, if_neg (by simp [hnc]), if_pos (by simpa using hsuf)]
    · intro desc acc hsuf
      simp only [setupFold]
      rw [if_neg hne, if_neg (by simp [hnc]), if_neg (by simpa using hsuf)]

/-- C10, witness: a `"Stirrer 2: ..."` line (digit before the colon) is
appended to the open component's description. -/
theorem c10_amended_witness :
    setupFold (some ("Reactor".toList), "500 mL".toList, [])
        ("Stirrer 2: external".toList) =
      (some ("Reactor".toList),
        "500 mL".toList ++ ' ' :: strip ("Stirrer 2: external".toList), []) :=
  ((c10_amended ("Stirrer 2: external".toList)).2 (by decide) (by decide)).1
    ("Reactor".toList) ("500 mL".toList) []

end PdfExtract
